import Mathlib

/-! Font loading and width estimation (`drawing/fonts.go`).

A shallow embedding of `LoadFont`, `LoadDefaultFont` and `Settings.MeasureFont`.

The package-level variables `FontName` and `theFont` become fields of an explicit
`State`; the file system is a further field, threaded through every call.  The
standard-library and freetype entry points the code calls (`ioutil.ReadFile`,
`truetype.Parse`, `http.Get`, `os.Create`, `io.Copy`, and the face measurement) are
fields of an environment `Env`, so every theorem holds for all their behaviours.
A ghost `trace` records each external call in program order.

Go's `int` is taken to be 64 bits wide.
-/

namespace Drawing

/-- Go strings and byte slices: finite sequences of bytes; `len` is `List.length`. -/
abbrev Bytes := List (Fin 256)

/-- A Go `error` value, identified by its message. -/
structure GoError where
  msg : String
deriving DecidableEq, Repr

/-- The error built by `fmt.Errorf` from a constant format string. -/
def Errorf (text : String) : GoError := ⟨text⟩

/-- The package variable `defaultFontURL`. -/
def defaultFontURL : String :=
  "https://github.com/googlefonts/opensans/raw/main/fonts/ttf/OpenSans-Regular.ttf"

/-- The slice `commonPaths` of `LoadDefaultFont`, in source order. -/
def commonPaths : List String :=
  [ "/Library/Fonts/Arial.ttf",
    "C:\\WINDOWS\\Fonts\\arial.ttf",
    "C:\\WINNT\\Fonts\\arial.ttf",
    "/usr/share/fonts/truetype/msttcorefonts/arial.ttf" ]

/-- The relative file name used for the cached and the downloaded font. -/
def cacheFile : String := "OpenSans-Regular.ttf"

/-- One entry of the ghost trace.  `load name path ok` is appended when a call
`LoadFont(name, path)` returns, `ok` telling whether it returned `nil`; every
other constructor is appended when the external call of that name is made. -/
inductive Event where
  | readFile (path : String)
  | parse (fontBytes : Bytes)
  | load (name path : String) (ok : Bool)
  | httpGet (url : String)
  | stderr (text : String)
  | create (path : String)
  | copy (path : String)
  | closeFile
  | closeBody
deriving DecidableEq, Repr

/-- The external calls of `fonts.go`, over an abstract file system `FS` and an
abstract parsed font `Font`.
* `readFile` is `ioutil.ReadFile`: the bytes, or the error.
* `parse` is `truetype.Parse`: the pair `(font, err)` exactly as Go returns it.
* `httpGet` is `http.Get`: the pair `(resp, err)`, a response being its body.
* `create` is `os.Create`: on success the file system with the file truncated.
* `copy` is `io.Copy(f, resp.Body)`: the file system after the write, the number
  of bytes written and the error. -/
structure Env (FS Font : Type) where
  readFile : FS → String → Except GoError Bytes
  parse : Bytes → Option Font × Option GoError
  httpGet : String → Option Bytes × Option GoError
  create : FS → String → Except GoError FS
  copy : FS → String → Bytes → FS × Int × Option GoError

/-- The package variables `FontName` and `theFont`, the file system, and the
ghost trace of external calls made so far. -/
structure State (FS Font : Type) where
  FontName : String
  theFont : Option Font
  fs : FS
  trace : List Event

/-- How a call ends: it returns an `error` (or `nil`), or it faults on a nil
pointer dereference. -/
inductive Outcome where
  | returned (err : Option GoError)
  | panicked
deriving DecidableEq, Repr

section Model

variable {FS Font : Type}

/-- Append one event to the ghost trace. -/
def logEvent (ev : Event) (st : State FS Font) : State FS Font :=
  { st with trace := st.trace ++ [ev] }

/-- `LoadFont(name, path)`, lines 92-103.  The result of `truetype.Parse` is
assigned to `theFont` before `err` is inspected. -/
def LoadFont (env : Env FS Font) (name path : String) (st : State FS Font) :
    Option GoError × State FS Font :=
  let st := logEvent (.readFile path) st
  match env.readFile st.fs path with
  | .error err => (some err, logEvent (.load name path false) st)
  | .ok fontBytes =>
    let st := logEvent (.parse fontBytes) st
    let st := { st with theFont := (env.parse fontBytes).1 }
    match (env.parse fontBytes).2 with
    | some err => (some err, logEvent (.load name path false) st)
    | none => (none, logEvent (.load name path true) { st with FontName := name })

/-- The `for _, path := range commonPaths` loop, lines 57-62: `true` when some
`LoadFont("Arial", path)` returned `nil` (the function then returns `nil`). -/
def loadCommonPaths (env : Env FS Font) : List String → State FS Font → Bool × State FS Font
  | [], st => (false, st)
  | path :: rest, st =>
    match LoadFont env "Arial" path st with
    | (none, st) => (true, st)
    | (some _, st) => loadCommonPaths env rest st

/-- Lines 81-89: `f.Close()`, `resp.Body.Close()`, the second
`LoadFont("OpenSans", "OpenSans-Regular.ttf")`, and the final error.
`f.Close()` on a nil `*os.File` returns an error and does not fault;
`resp.Body` on a nil response faults. -/
def closeAndReload (env : Env FS Font) (resp : Option Bytes) (st : State FS Font) :
    Outcome × State FS Font :=
  let st := logEvent .closeFile st
  match resp with
  | none => (.panicked, st)
  | some _ =>
    let st := logEvent .closeBody st
    match LoadFont env "OpenSans" cacheFile st with
    | (none, st) => (.returned none, st)
    | (some _, st) => (.returned (some (Errorf "unable to find Arial.ttf")), st)

/-- Lines 70-89, the body of `if err == nil` after `http.Get` and what follows it. -/
def download (env : Env FS Font) (resp : Option Bytes) (st : State FS Font) :
    Outcome × State FS Font :=
  let st := logEvent (.stderr "Downloading Font: OpenSans-Regular.ttf (Apache Licensed)\n") st
  let st := logEvent (.stderr "Learn more about usage at https://github.com/googlefonts/opensans\n") st
  let st := logEvent (.stderr "Or provide a different truetype font with -f fontname.ttf\n\n") st
  let st := logEvent (.create cacheFile) st
  match env.create st.fs cacheFile with
  | .ok fs1 =>
    let st := { st with fs := fs1 }
    match resp with
    | none => (.panicked, st)
    | some body =>
      let st := logEvent (.copy cacheFile) st
      let r := env.copy st.fs cacheFile body
      let st := { st with fs := r.1 }
      if r.2.1 = 0 ∨ r.2.2 ≠ none then
        (.returned (some (Errorf "failed to download a font to use")), st)
      else closeAndReload env resp st
  | .error _ => closeAndReload env resp st

/-- `LoadDefaultFont()`, lines 44-90. -/
def LoadDefaultFont (env : Env FS Font) (st : State FS Font) : Outcome × State FS Font :=
  match loadCommonPaths env commonPaths st with
  | (true, st) => (.returned none, st)
  | (false, st) =>
    match LoadFont env "OpenSans" cacheFile st with
    | (none, st) => (.returned none, st)
    | (some _, st) =>
      let st := logEvent (.httpGet defaultFontURL) st
      match env.httpGet defaultFontURL with
      | (resp, none) => download env resp st
      | (_, some _) => (.returned (some (Errorf "unable to find Arial.ttf")), st)

end Model

/-- The receiver of `MeasureFont`; `dpi` is the only field the method reads. -/
structure Settings (Dpi : Type) where
  dpi : Dpi

/-- The type `fixed.Int26_6`: a signed 32-bit integer counting 64ths of a pixel. -/
def Int26_6 : Type := { w : Int // -2 ^ 31 ≤ w ∧ w < 2 ^ 31 }

/-- Reduction of an integer to Go's 64-bit two's-complement `int`. -/
def wrapInt64 (v : Int) : Int := (v + 2 ^ 63) % 2 ^ 64 - 2 ^ 63

/-- `(*Settings).MeasureFont(s, sz)`, lines 108-123.  `measureString font sz dpi s`
stands for `truetype.NewFace` at size `sz` and resolution `dpi` followed by
`font.Drawer.MeasureString(s)`. -/
def MeasureFont {FS Font Dpi : Type} (measureString : Font → Int → Dpi → Bytes → Int26_6)
    (st : State FS Font) (x : Settings Dpi) (s : Bytes) (sz : Int) : Int :=
  match st.theFont with
  | some font => (measureString font sz x.dpi s).val >>> (6 : Nat)
  | none => wrapInt64 ((s.length : Int) * wrapInt64 (sz - 2))

/-! ### Specification vocabulary -/

section Vocabulary

variable {FS Font : Type}

/-- The file at `path` is readable and its bytes parse without error. -/
def loads (env : Env FS Font) (fs : FS) (path : String) : Bool :=
  match env.readFile fs path with
  | .ok fontBytes => (env.parse fontBytes).2.isNone
  | .error _ => false

/-- The external calls one `LoadFont` of `path` makes on file system `fs`: the
read, and the parse when the read succeeded. -/
def readTrace (env : Env FS Font) (fs : FS) (path : String) : List Event :=
  match env.readFile fs path with
  | .ok fontBytes => [.readFile path, .parse fontBytes]
  | .error _ => [.readFile path]

/-- The events one call `LoadFont(name, path)` appends on file system `fs`. -/
def loadTrace (env : Env FS Font) (fs : FS) (name path : String) : List Event :=
  readTrace env fs path ++ [.load name path (loads env fs path)]

/-- The events the loop over `paths` appends on file system `fs`. -/
def commonTrace (env : Env FS Font) (fs : FS) : List String → List Event
  | [] => []
  | path :: rest =>
    loadTrace env fs "Arial" path ++ (if loads env fs path then [] else commonTrace env fs rest)

/-- The state after the four system loads and the cache load (lines 57-63). -/
def afterInitialLoads (env : Env FS Font) (st : State FS Font) : State FS Font :=
  (LoadFont env "OpenSans" cacheFile (loadCommonPaths env commonPaths st).2).2

/-- The three notices written to standard error (lines 70-72) and the
`os.Create` that follows them. -/
def noticeTrace : List Event :=
  [ .stderr "Downloading Font: OpenSans-Regular.ttf (Apache Licensed)\n",
    .stderr "Learn more about usage at https://github.com/googlefonts/opensans\n",
    .stderr "Or provide a different truetype font with -f fontname.ttf\n\n",
    .create cacheFile ]

end Vocabulary

/-- An attempt to obtain a font: a call of `LoadFont`, or the HTTP GET. -/
inductive Attempt where
  | load (name path : String)
  | get (url : String)
deriving DecidableEq, Repr

/-- The attempt an event records, if it records one. -/
def Event.attempt : Event → Option Attempt
  | .load name path _ => some (.load name path)
  | .httpGet url => some (.get url)
  | _ => none

/-- The attempts of `LoadDefaultFont` in the order the source makes them. -/
def priorityOrder : List Attempt :=
  commonPaths.map (Attempt.load "Arial") ++
    [.load "OpenSans" cacheFile, .get defaultFontURL, .load "OpenSans" cacheFile]

/-- The event is a successful `LoadFont`. -/
def Event.isSuccess : Event → Bool
  | .load _ _ ok => ok
  | _ => false

/-- The event belongs to the download step: the GET, a write to standard error,
the creation of a file, a copy, or a close. -/
def Event.isFetch : Event → Bool
  | .httpGet _ => true
  | .stderr _ => true
  | .create _ => true
  | .copy _ => true
  | .closeFile => true
  | .closeBody => true
  | _ => false

/-! ### Concrete worlds -/

/-- A concrete file system: the content of each readable file. -/
abbrev DemoFS : Type := String → Option Bytes

/-- A concrete world.  A file is readable when it exists; bytes parse when there
are at least twelve of them, the parsed font being the bytes; the GET answers
`resp`; `os.Create` succeeds when `createOk`; the copy writes the first `written`
bytes of the body and reports `copyErr`. -/
def demoEnv (resp : Option Bytes × Option GoError) (createOk : Bool) (written : Int)
    (copyErr : Option GoError) : Env DemoFS Bytes where
  readFile fs path :=
    match fs path with
    | some content => .ok content
    | none => .error ⟨"open: no such file or directory"⟩
  parse fontBytes :=
    if fontBytes.length < 12 then (none, some ⟨"freetype: invalid TrueType format: TTF data is too short"⟩)
    else (some fontBytes, none)
  httpGet _ := resp
  create fs path :=
    if createOk then .ok (Function.update fs path (some []))
    else .error ⟨"open: permission denied"⟩
  copy fs path body := (Function.update fs path (some (body.take written.toNat)), written, copyErr)

/-- Twelve zero bytes: the shortest content `demoEnv` parses. -/
def validFont : Bytes := List.replicate 12 0

/-- No file exists. -/
def emptyFS : DemoFS := fun _ => none

/-- Only the cache file exists, with parsable content. -/
def cachedFS : DemoFS := fun path => if path = cacheFile then some validFont else none

/-- Only the cache file exists, with a single byte that does not parse. -/
def junkFS : DemoFS := fun path => if path = cacheFile then some [7] else none

/-- The world without network: the GET fails. -/
def offlineEnv : Env DemoFS Bytes :=
  demoEnv (none, some ⟨"dial tcp: no route to host"⟩) true 0 none

/-- The world whose GET answers with an empty body, of which the copy writes
zero bytes. -/
def emptyBodyEnv : Env DemoFS Bytes := demoEnv (some [], none) true 0 none

/-- The world whose GET answers with a parsable font but where `os.Create` fails. -/
def readOnlyEnv : Env DemoFS Bytes := demoEnv (some validFont, none) false 0 none

/-- The state at process start: no name, no font. -/
def initState (fs : DemoFS) : State DemoFS Bytes := ⟨"", none, fs, []⟩

/-- A state in which Arial is the active font. -/
def arialState (fs : DemoFS) : State DemoFS Bytes := ⟨"Arial", some validFont, fs, []⟩

/-- A concrete measurement: forty 64ths of a pixel per byte and point of size,
reduced to the range of `Int26_6`. -/
def demoMeasure (_font : Bytes) (sz : Int) (_dpi : Nat) (s : Bytes) : Int26_6 :=
  ⟨((s.length : Int) * sz * 40) % 2 ^ 31, by constructor <;> omega⟩

/-- A concrete measurement whose advance is one 64th of a pixel to the left. -/
def backwardMeasure (_font : Bytes) (_sz : Int) (_dpi : Nat) (_s : Bytes) : Int26_6 :=
  ⟨-1, by decide⟩

/-! ### `LoadFont` -/

section LoadFontLemmas

variable {FS Font : Type}

theorem LoadFont_fs (env : Env FS Font) (name path : String) (st : State FS Font) :
    (LoadFont env name path st).2.fs = st.fs := by
  unfold LoadFont logEvent
  cases h : env.readFile st.fs path with
  | error e => simp [h]
  | ok b =>
    simp only [h]
    cases h2 : (env.parse b).2 <;> simp [h2]

theorem LoadFont_trace (env : Env FS Font) (name path : String) (st : State FS Font) :
    (LoadFont env name path st).2.trace = st.trace ++ loadTrace env st.fs name path := by
  unfold LoadFont logEvent loadTrace readTrace loads
  cases h : env.readFile st.fs path with
  | error e => simp [h]
  | ok b =>
    simp only [h]
    cases h2 : (env.parse b).2 <;> simp [h2]

theorem LoadFont_eq_none_iff (env : Env FS Font) (name path : String) (st : State FS Font) :
    (LoadFont env name path st).1 = none ↔ loads env st.fs path = true := by
  unfold LoadFont logEvent loads
  cases h : env.readFile st.fs path with
  | error e => simp [h]
  | ok b =>
    simp only [h]
    cases h2 : (env.parse b).2 <;> simp [h2]

theorem LoadFont_FontName (env : Env FS Font) (name path : String) (st : State FS Font) :
    (LoadFont env name path st).2.FontName =
      if loads env st.fs path then name else st.FontName := by
  unfold LoadFont logEvent loads
  cases h : env.readFile st.fs path with
  | error e => simp [h]
  | ok b =>
    simp only [h]
    split <;> rename_i h2 <;> simp [h2]

theorem readTrace_quiet (env : Env FS Font) (fs : FS) (path : String) :
    ∀ ev ∈ readTrace env fs path,
      ev.isSuccess = false ∧ ev.isFetch = false ∧ ev.attempt = none := by
  intro ev hev
  unfold readTrace at hev
  cases h : env.readFile fs path with
  | error e =>
    simp only [h, List.mem_singleton] at hev
    subst hev
    exact ⟨rfl, rfl, rfl⟩
  | ok b =>
    simp only [h, List.mem_cons, List.mem_singleton, List.not_mem_nil, or_false] at hev
    rcases hev with hev | hev <;> subst hev <;> exact ⟨rfl, rfl, rfl⟩

theorem readTrace_attempts (env : Env FS Font) (fs : FS) (path : String) :
    (readTrace env fs path).filterMap Event.attempt = [] := by
  rw [List.filterMap_eq_nil_iff]
  intro ev hev
  exact (readTrace_quiet env fs path ev hev).2.2

theorem loadTrace_attempts (env : Env FS Font) (fs : FS) (name path : String) :
    (loadTrace env fs name path).filterMap Event.attempt = [Attempt.load name path] := by
  unfold loadTrace
  rw [List.filterMap_append, readTrace_attempts]
  rfl

theorem loadTrace_noFetch (env : Env FS Font) (fs : FS) (name path : String) :
    ∀ ev ∈ loadTrace env fs name path, ev.isFetch = false := by
  intro ev hev
  unfold loadTrace at hev
  rcases List.mem_append.mp hev with h | h
  · exact (readTrace_quiet env fs path ev h).2.1
  · rw [List.mem_singleton] at h
    subst h
    rfl

theorem loadTrace_quiet (env : Env FS Font) (fs : FS) (name path : String)
    (hfail : loads env fs path = false) :
    ∀ ev ∈ loadTrace env fs name path, ev.isSuccess = false := by
  intro ev hev
  unfold loadTrace at hev
  rcases List.mem_append.mp hev with h | h
  · exact (readTrace_quiet env fs path ev h).1
  · rw [List.mem_singleton] at h
    subst h
    exact hfail

theorem loadCommonPaths_spec (env : Env FS Font) (paths : List String) (st : State FS Font) :
    (loadCommonPaths env paths st).1 = paths.any (loads env st.fs) ∧
    (loadCommonPaths env paths st).2.fs = st.fs ∧
    (loadCommonPaths env paths st).2.trace = st.trace ++ commonTrace env st.fs paths ∧
    (loadCommonPaths env paths st).2.FontName =
      if paths.any (loads env st.fs) then "Arial" else st.FontName := by
  induction paths generalizing st with
  | nil => simp [loadCommonPaths, commonTrace]
  | cons path rest ih =>
    have hfs := LoadFont_fs env "Arial" path st
    have htr := LoadFont_trace env "Arial" path st
    have hres := LoadFont_eq_none_iff env "Arial" path st
    have hname := LoadFont_FontName env "Arial" path st
    unfold loadCommonPaths
    rcases hload : LoadFont env "Arial" path st with ⟨res, st1⟩
    rw [hload] at hfs htr hres hname
    simp only at hfs htr hres hname
    cases res with
    | none =>
      have hl : loads env st.fs path = true := hres.mp rfl
      simp [commonTrace, hl, hfs, htr, hname]
    | some e =>
      have hl : loads env st.fs path = false := by
        cases h : loads env st.fs path
        · rfl
        · exact absurd (hres.mpr h) (by simp)
      have h := ih st1
      rw [hfs, htr] at h
      simp only [hl] at hname
      simp [commonTrace, hl, h.1, h.2.1, h.2.2.1, h.2.2.2, hname]

theorem commonTrace_fail (env : Env FS Font) (fs : FS) (paths : List String)
    (hfail : paths.any (loads env fs) = false) :
    (∀ ev ∈ commonTrace env fs paths, ev.isSuccess = false ∧ ev.isFetch = false) ∧
    (commonTrace env fs paths).filterMap Event.attempt = paths.map (Attempt.load "Arial") := by
  induction paths with
  | nil => simp [commonTrace]
  | cons path rest ih =>
    simp only [List.any_cons, Bool.or_eq_false_iff] at hfail
    obtain ⟨ih1, ih2⟩ := ih hfail.2
    simp only [commonTrace, hfail.1, Bool.false_eq_true, if_false]
    constructor
    · intro ev hev
      rcases List.mem_append.mp hev with h | h
      · exact ⟨loadTrace_quiet env fs "Arial" path hfail.1 ev h,
          loadTrace_noFetch env fs "Arial" path ev h⟩
      · exact ih1 ev h
    · rw [List.filterMap_append, loadTrace_attempts, ih2]
      rfl

theorem commonTrace_success (env : Env FS Font) (fs : FS) (paths : List String)
    (hok : paths.any (loads env fs) = true) :
    ∃ pre path rest, commonTrace env fs paths = pre ++ [Event.load "Arial" path true] ∧
      (∀ ev ∈ pre, ev.isSuccess = false ∧ ev.isFetch = false) ∧
      (pre ++ [Event.load "Arial" path true]).filterMap Event.attempt ++ rest =
        paths.map (Attempt.load "Arial") := by
  induction paths with
  | nil => simp at hok
  | cons path rest ih =>
    cases hl : loads env fs path with
    | true =>
      refine ⟨readTrace env fs path, path, rest.map (Attempt.load "Arial"), ?_, ?_, ?_⟩
      · simp [commonTrace, hl, loadTrace]
      · intro ev hev
        exact ⟨(readTrace_quiet env fs path ev hev).1, (readTrace_quiet env fs path ev hev).2.1⟩
      · rw [List.filterMap_append, readTrace_attempts]
        rfl
    | false =>
      simp only [List.any_cons, hl, Bool.false_or] at hok
      obtain ⟨pre, good, more, h1, h2, h3⟩ := ih hok
      refine ⟨loadTrace env fs "Arial" path ++ pre, good, more, ?_, ?_, ?_⟩
      · simp [commonTrace, hl, h1]
      · intro ev hev
        rcases List.mem_append.mp hev with h | h
        · exact ⟨loadTrace_quiet env fs "Arial" path hl ev h,
            loadTrace_noFetch env fs "Arial" path ev h⟩
        · exact h2 ev h
      · rw [List.append_assoc, List.filterMap_append, loadTrace_attempts, List.append_assoc, h3]
        rfl

/-- The events of the four system loads and the cache load when all five fail. -/
theorem failTrace_spec (env : Env FS Font) (fs : FS)
    (hsys : commonPaths.any (loads env fs) = false) (hcache : loads env fs cacheFile = false) :
    (∀ ev ∈ commonTrace env fs commonPaths ++ loadTrace env fs "OpenSans" cacheFile,
      ev.isSuccess = false ∧ ev.isFetch = false) ∧
    (commonTrace env fs commonPaths ++ loadTrace env fs "OpenSans" cacheFile).filterMap
      Event.attempt = commonPaths.map (Attempt.load "Arial") ++ [Attempt.load "OpenSans" cacheFile] := by
  obtain ⟨h1, h2⟩ := commonTrace_fail env fs commonPaths hsys
  constructor
  · intro ev hev
    rcases List.mem_append.mp hev with h | h
    · exact h1 ev h
    · exact ⟨loadTrace_quiet env fs "OpenSans" cacheFile hcache ev h,
        loadTrace_noFetch env fs "OpenSans" cacheFile ev h⟩
  · rw [List.filterMap_append, h2, loadTrace_attempts]

theorem afterInitialLoads_spec (env : Env FS Font) (st : State FS Font)
    (hsys : commonPaths.any (loads env st.fs) = false) :
    (afterInitialLoads env st).fs = st.fs ∧
    (afterInitialLoads env st).trace =
      st.trace ++ (commonTrace env st.fs commonPaths ++ loadTrace env st.fs "OpenSans" cacheFile) ∧
    (afterInitialLoads env st).FontName =
      if loads env st.fs cacheFile then "OpenSans" else st.FontName := by
  obtain ⟨_, h2, h3, h4⟩ := loadCommonPaths_spec env commonPaths st
  unfold afterInitialLoads
  rw [LoadFont_fs, LoadFont_trace, LoadFont_FontName, h2, h3, h4, hsys]
  simp

theorem LoadDefaultFont_of_common (env : Env FS Font) (st : State FS Font)
    (hsys : commonPaths.any (loads env st.fs) = true) :
    LoadDefaultFont env st = (.returned none, (loadCommonPaths env commonPaths st).2) := by
  have h1 := (loadCommonPaths_spec env commonPaths st).1
  unfold LoadDefaultFont
  rcases hc : loadCommonPaths env commonPaths st with ⟨b, st1⟩
  rw [hc, hsys] at h1
  simp only at h1
  subst h1
  rfl

theorem LoadDefaultFont_of_cache (env : Env FS Font) (st : State FS Font)
    (hsys : commonPaths.any (loads env st.fs) = false)
    (hcache : loads env st.fs cacheFile = true) :
    LoadDefaultFont env st = (.returned none, afterInitialLoads env st) := by
  obtain ⟨h1, h2, _, _⟩ := loadCommonPaths_spec env commonPaths st
  unfold LoadDefaultFont afterInitialLoads
  rcases hc : loadCommonPaths env commonPaths st with ⟨b, st1⟩
  rw [hc, hsys] at h1
  rw [hc] at h2
  simp only at h1 h2
  subst h1
  have h3 := LoadFont_eq_none_iff env "OpenSans" cacheFile st1
  rw [h2, hcache] at h3
  rcases hl : LoadFont env "OpenSans" cacheFile st1 with ⟨res, st2⟩
  rw [hl] at h3
  simp only [iff_true] at h3
  subst h3
  simp only [hl]

theorem LoadDefaultFont_of_fail (env : Env FS Font) (st : State FS Font)
    (hsys : commonPaths.any (loads env st.fs) = false)
    (hcache : loads env st.fs cacheFile = false) :
    LoadDefaultFont env st =
      match env.httpGet defaultFontURL with
      | (resp, none) => download env resp (logEvent (.httpGet defaultFontURL) (afterInitialLoads env st))
      | (_, some _) =>
        (.returned (some (Errorf "unable to find Arial.ttf")),
          logEvent (.httpGet defaultFontURL) (afterInitialLoads env st)) := by
  obtain ⟨h1, h2, _, _⟩ := loadCommonPaths_spec env commonPaths st
  unfold LoadDefaultFont afterInitialLoads
  rcases hc : loadCommonPaths env commonPaths st with ⟨b, st1⟩
  rw [hc, hsys] at h1
  rw [hc] at h2
  simp only at h1 h2
  subst h1
  have h3 := LoadFont_eq_none_iff env "OpenSans" cacheFile st1
  rw [h2, hcache] at h3
  rcases hl : LoadFont env "OpenSans" cacheFile st1 with ⟨res, st2⟩
  rw [hl] at h3
  cases res with
  | none => simp at h3
  | some e => simp only [hl]

theorem closeAndReload_some (env : Env FS Font) (body : Bytes) (st : State FS Font) :
    closeAndReload env (some body) st =
      (if loads env st.fs cacheFile then Outcome.returned none
        else Outcome.returned (some (Errorf "unable to find Arial.ttf")),
       (LoadFont env "OpenSans" cacheFile (logEvent .closeBody (logEvent .closeFile st))).2) := by
  have h3 := LoadFont_eq_none_iff env "OpenSans" cacheFile
    (logEvent .closeBody (logEvent .closeFile st))
  unfold closeAndReload
  simp only
  rcases hl : LoadFont env "OpenSans" cacheFile (logEvent .closeBody (logEvent .closeFile st))
    with ⟨res, st2⟩
  rw [hl] at h3
  have hfs : (logEvent Event.closeBody (logEvent Event.closeFile st)).fs = st.fs := rfl
  rw [hfs] at h3
  cases res with
  | none =>
    have : loads env st.fs cacheFile = true := h3.mp rfl
    simp [this]
  | some e =>
    have : loads env st.fs cacheFile = false := by
      cases h : loads env st.fs cacheFile
      · rfl
      · exact absurd (h3.mpr h) (by simp)
    simp [this]

theorem download_create_error_nil (env : Env FS Font) (st : State FS Font) (e : GoError)
    (hcreate : env.create st.fs cacheFile = .error e) :
    (download env none st).1 = .panicked ∧
    (download env none st).2.fs = st.fs ∧
    (download env none st).2.trace = st.trace ++ (noticeTrace ++ [.closeFile]) := by
  simp [download, logEvent, hcreate, closeAndReload, noticeTrace]

theorem download_create_error (env : Env FS Font) (st : State FS Font) (e : GoError)
    (body : Bytes) (hcreate : env.create st.fs cacheFile = .error e) :
    (download env (some body) st).1 =
      (if loads env st.fs cacheFile then Outcome.returned none
        else Outcome.returned (some (Errorf "unable to find Arial.ttf"))) ∧
    (download env (some body) st).2.fs = st.fs ∧
    (download env (some body) st).2.trace = st.trace ++
      (noticeTrace ++ [.closeFile, .closeBody] ++ loadTrace env st.fs "OpenSans" cacheFile) := by
  simp [download, logEvent, hcreate, closeAndReload_some, LoadFont_fs, LoadFont_trace,
    noticeTrace]

theorem download_create_ok_nil (env : Env FS Font) (st : State FS Font) (fs1 : FS)
    (hcreate : env.create st.fs cacheFile = .ok fs1) :
    (download env none st).1 = .panicked ∧
    (download env none st).2.fs = fs1 ∧
    (download env none st).2.trace = st.trace ++ noticeTrace := by
  simp [download, logEvent, hcreate, noticeTrace]

theorem download_copy_failed (env : Env FS Font) (st : State FS Font) (fs1 : FS)
    (body : Bytes) (hcreate : env.create st.fs cacheFile = .ok fs1)
    (hcopy : (env.copy fs1 cacheFile body).2.1 = 0 ∨ (env.copy fs1 cacheFile body).2.2 ≠ none) :
    (download env (some body) st).1 =
      .returned (some (Errorf "failed to download a font to use")) ∧
    (download env (some body) st).2.fs = (env.copy fs1 cacheFile body).1 ∧
    (download env (some body) st).2.trace = st.trace ++ (noticeTrace ++ [.copy cacheFile]) := by
  simp [download, logEvent, hcreate, hcopy, noticeTrace]

theorem download_copy_ok (env : Env FS Font) (st : State FS Font) (fs1 : FS)
    (body : Bytes) (hcreate : env.create st.fs cacheFile = .ok fs1)
    (hcopy : ¬ ((env.copy fs1 cacheFile body).2.1 = 0 ∨ (env.copy fs1 cacheFile body).2.2 ≠ none)) :
    (download env (some body) st).1 =
      (if loads env (env.copy fs1 cacheFile body).1 cacheFile then Outcome.returned none
        else Outcome.returned (some (Errorf "unable to find Arial.ttf"))) ∧
    (download env (some body) st).2.fs = (env.copy fs1 cacheFile body).1 ∧
    (download env (some body) st).2.trace = st.trace ++
      (noticeTrace ++ [.copy cacheFile, .closeFile, .closeBody] ++
        loadTrace env (env.copy fs1 cacheFile body).1 "OpenSans" cacheFile) ∧
    (download env (some body) st).2.FontName =
      if loads env (env.copy fs1 cacheFile body).1 cacheFile then "OpenSans" else st.FontName := by
  simp [download, logEvent, hcreate, hcopy, closeAndReload_some, LoadFont_fs, LoadFont_trace,
    LoadFont_FontName, noticeTrace]

theorem noticeTrace_quiet : ∀ ev ∈ noticeTrace, ev.isSuccess = false ∧ ev.attempt = none := by
  intro ev hev
  simp only [noticeTrace, List.mem_cons, List.mem_singleton, List.not_mem_nil, or_false] at hev
  rcases hev with h | h | h | h <;> subst h <;> exact ⟨rfl, rfl⟩

theorem Event.ne_of_isFetch_false (ev : Event) (h : ev.isFetch = false) :
    (∀ url, ev ≠ .httpGet url) ∧ (∀ text, ev ≠ .stderr text) ∧
    (∀ path, ev ≠ .create path) ∧ (∀ path, ev ≠ .copy path) := by
  cases ev <;> simp_all [Event.isFetch]

/-- The events of the download step end in one last event; none before it is a
successful load; the step yields `nil` exactly when the last one is; and the only
attempt it can contain is the second load of the cache file. -/
theorem download_shape (env : Env FS Font) (resp : Option Bytes) (st : State FS Font) :
    ∃ pre last, (download env resp st).2.trace = st.trace ++ (pre ++ [last]) ∧
      (∀ ev ∈ pre, ev.isSuccess = false) ∧
      ((download env resp st).1 = .returned none ↔ last.isSuccess = true) ∧
      ((pre ++ [last]).filterMap Event.attempt = [] ∨
        (pre ++ [last]).filterMap Event.attempt = [Attempt.load "OpenSans" cacheFile]) := by
  have hq : ∀ (fs : FS) (extra : List Event),
      (∀ ev ∈ extra, ev.isSuccess = false ∧ ev.attempt = none) →
      (∀ ev ∈ noticeTrace ++ extra ++ readTrace env fs cacheFile,
        ev.isSuccess = false ∧ ev.attempt = none) := by
    intro fs extra hextra ev hev
    rcases List.mem_append.mp hev with h | h
    · rcases List.mem_append.mp h with h | h
      · exact noticeTrace_quiet ev h
      · exact hextra ev h
    · exact ⟨(readTrace_quiet env fs cacheFile ev h).1, (readTrace_quiet env fs cacheFile ev h).2.2⟩
  have hreload : ∀ (fs : FS) (extra : List Event),
      (∀ ev ∈ extra, ev.isSuccess = false ∧ ev.attempt = none) →
      ((noticeTrace ++ extra ++ readTrace env fs cacheFile) ++
        [Event.load "OpenSans" cacheFile (loads env fs cacheFile)]).filterMap Event.attempt =
        [Attempt.load "OpenSans" cacheFile] := by
    intro fs extra hextra
    rw [List.filterMap_append, List.filterMap_eq_nil_iff.mpr (fun ev hev => (hq fs extra hextra ev hev).2)]
    rfl
  cases hcreate : env.create st.fs cacheFile with
  | error e =>
    cases resp with
    | none =>
      obtain ⟨h1, _, h3⟩ := download_create_error_nil env st e hcreate
      refine ⟨noticeTrace, .closeFile, h3, fun ev hev => (noticeTrace_quiet ev hev).1, ?_, ?_⟩
      · simp [h1, Event.isSuccess]
      · left
        rw [List.filterMap_append,
          List.filterMap_eq_nil_iff.mpr (fun ev hev => (noticeTrace_quiet ev hev).2)]
        rfl
    | some body =>
      obtain ⟨h1, _, h3⟩ := download_create_error env st e body hcreate
      have hextra : ∀ ev ∈ [Event.closeFile, Event.closeBody],
          ev.isSuccess = false ∧ ev.attempt = none := by
        intro ev hev
        simp only [List.mem_cons, List.mem_singleton, List.not_mem_nil, or_false] at hev
        rcases hev with h | h <;> subst h <;> exact ⟨rfl, rfl⟩
      refine ⟨noticeTrace ++ [.closeFile, .closeBody] ++ readTrace env st.fs cacheFile,
        .load "OpenSans" cacheFile (loads env st.fs cacheFile), ?_,
        fun ev hev => (hq st.fs _ hextra ev hev).1, ?_, Or.inr (hreload st.fs _ hextra)⟩
      · rw [h3]
        simp [loadTrace]
      · rw [h1]
        cases loads env st.fs cacheFile <;> simp [Event.isSuccess]
  | ok fs1 =>
    cases resp with
    | none =>
      obtain ⟨h1, _, h3⟩ := download_create_ok_nil env st fs1 hcreate
      refine ⟨noticeTrace.dropLast, .create cacheFile, h3, ?_, ?_, ?_⟩
      · intro ev hev
        exact (noticeTrace_quiet ev (List.mem_of_mem_dropLast hev)).1
      · simp [h1, Event.isSuccess]
      · left
        rfl
    | some body =>
      by_cases hcopy : (env.copy fs1 cacheFile body).2.1 = 0 ∨
          (env.copy fs1 cacheFile body).2.2 ≠ none
      · obtain ⟨h1, _, h3⟩ := download_copy_failed env st fs1 body hcreate hcopy
        refine ⟨noticeTrace, .copy cacheFile, h3, fun ev hev => (noticeTrace_quiet ev hev).1, ?_, ?_⟩
        · simp [h1, Event.isSuccess]
        · left
          rw [List.filterMap_append,
            List.filterMap_eq_nil_iff.mpr (fun ev hev => (noticeTrace_quiet ev hev).2)]
          rfl
      · obtain ⟨h1, _, h3, _⟩ := download_copy_ok env st fs1 body hcreate hcopy
        have hextra : ∀ ev ∈ [Event.copy cacheFile, Event.closeFile, Event.closeBody],
            ev.isSuccess = false ∧ ev.attempt = none := by
          intro ev hev
          simp only [List.mem_cons, List.mem_singleton, List.not_mem_nil, or_false] at hev
          rcases hev with h | h | h <;> subst h <;> exact ⟨rfl, rfl⟩
        refine ⟨noticeTrace ++ [.copy cacheFile, .closeFile, .closeBody] ++
            readTrace env (env.copy fs1 cacheFile body).1 cacheFile,
          .load "OpenSans" cacheFile (loads env (env.copy fs1 cacheFile body).1 cacheFile), ?_,
          fun ev hev => (hq _ _ hextra ev hev).1, ?_, Or.inr (hreload _ _ hextra)⟩
        · rw [h3]
          simp [loadTrace]
        · rw [h1]
          cases loads env (env.copy fs1 cacheFile body).1 cacheFile <;> simp [Event.isSuccess]

end LoadFontLemmas

/-- C1 (refuted by the code): a `LoadFont` whose file reads but does not parse
returns an error and yet replaces the active font by `nil`, the name staying
"Arial": the state after the failed call differs from the state before it. -/
theorem LoadFont_parse_error_clears_theFont :
    (LoadFont offlineEnv "Mine" cacheFile (arialState junkFS)).1 ≠ none ∧
    (arialState junkFS).theFont = some validFont ∧
    (LoadFont offlineEnv "Mine" cacheFile (arialState junkFS)).2.theFont = none ∧
    (LoadFont offlineEnv "Mine" cacheFile (arialState junkFS)).2.FontName = "Arial" := by
  decide

/-- C2: when `ioutil.ReadFile` fails, `LoadFont` returns that very error, the only
external call it makes is the read (the parser is not called), and `FontName`,
`theFont` and the file system are unchanged. -/
theorem LoadFont_read_error {FS Font : Type} (env : Env FS Font) (name path : String)
    (st : State FS Font) (e : GoError) (h : env.readFile st.fs path = .error e) :
    (LoadFont env name path st).1 = some e ∧
    (LoadFont env name path st).2.FontName = st.FontName ∧
    (LoadFont env name path st).2.theFont = st.theFont ∧
    (LoadFont env name path st).2.fs = st.fs ∧
    (LoadFont env name path st).2.trace =
      st.trace ++ [Event.readFile path, Event.load name path false] ∧
    ∀ fontBytes, Event.parse fontBytes ∉
      (LoadFont env name path st).2.trace.drop st.trace.length := by
  simp [LoadFont, logEvent, h]

theorem LoadFont_read_error_witness :
    (LoadFont offlineEnv "Mine" "missing.ttf" (arialState cachedFS)).1 =
      some ⟨"open: no such file or directory"⟩ ∧
    (LoadFont offlineEnv "Mine" "missing.ttf" (arialState cachedFS)).2.FontName = "Arial" ∧
    (LoadFont offlineEnv "Mine" "missing.ttf" (arialState cachedFS)).2.theFont =
      some validFont :=
  have h := LoadFont_read_error offlineEnv "Mine" "missing.ttf" (arialState cachedFS)
    ⟨"open: no such file or directory"⟩ rfl
  ⟨h.1, h.2.1, h.2.2.1⟩

/-- C3: `LoadFont(name, path)` returns `nil` exactly when the file is readable and
its bytes parse without error; and then `theFont` is the font `truetype.Parse`
returned for those bytes and `FontName` is `name`. -/
theorem LoadFont_nil_iff {FS Font : Type} (env : Env FS Font) (name path : String)
    (st : State FS Font) :
    ((LoadFont env name path st).1 = none ↔
      ∃ fontBytes, env.readFile st.fs path = .ok fontBytes ∧ (env.parse fontBytes).2 = none) ∧
    ((LoadFont env name path st).1 = none →
      ∃ fontBytes, env.readFile st.fs path = .ok fontBytes ∧
        (LoadFont env name path st).2.theFont = (env.parse fontBytes).1 ∧
        (LoadFont env name path st).2.FontName = name) := by
  unfold LoadFont logEvent
  cases h : env.readFile st.fs path with
  | error e => simp [h]
  | ok b =>
    simp only [h]
    cases h2 : (env.parse b).2 <;> simp [h2]

theorem LoadFont_nil_iff_witness :
    (LoadFont offlineEnv "OpenSans" cacheFile (initState cachedFS)).1 = none ∧
    ∃ fontBytes, offlineEnv.readFile cachedFS cacheFile = .ok fontBytes ∧
      (LoadFont offlineEnv "OpenSans" cacheFile (initState cachedFS)).2.theFont =
        (offlineEnv.parse fontBytes).1 ∧
      (LoadFont offlineEnv "OpenSans" cacheFile (initState cachedFS)).2.FontName = "OpenSans" :=
  ⟨by decide,
   (LoadFont_nil_iff offlineEnv "OpenSans" cacheFile (initState cachedFS)).2 (by decide)⟩

/-! ### `LoadDefaultFont` -/

/-- C6: `LoadDefaultFont` returns `nil` exactly when one of the four system paths
is readable and parses, or the cache file is readable and parses, or the GET
succeeds, the cache file is created, the copy writes a non-zero number of bytes
without error, and the file then read back parses. -/
theorem LoadDefaultFont_nil_iff {FS Font : Type} (env : Env FS Font) (st : State FS Font) :
    (LoadDefaultFont env st).1 = .returned none ↔
      (∃ path ∈ commonPaths, loads env st.fs path = true) ∨
      loads env st.fs cacheFile = true ∨
      (∃ body fs1, env.httpGet defaultFontURL = (some body, none) ∧
        env.create st.fs cacheFile = .ok fs1 ∧
        (env.copy fs1 cacheFile body).2.1 ≠ 0 ∧
        (env.copy fs1 cacheFile body).2.2 = none ∧
        loads env (env.copy fs1 cacheFile body).1 cacheFile = true) := by
  cases hsys : commonPaths.any (loads env st.fs) with
  | true =>
    rw [LoadDefaultFont_of_common env st hsys]
    have hex : ∃ path ∈ commonPaths, loads env st.fs path = true := by
      simpa [List.any_eq_true] using hsys
    simp only [true_iff]
    exact Or.inl hex
  | false =>
    have hno : ¬ ∃ path ∈ commonPaths, loads env st.fs path = true := by
      intro hex
      have : commonPaths.any (loads env st.fs) = true := by
        simpa [List.any_eq_true] using hex
      rw [hsys] at this
      exact Bool.false_ne_true this
    cases hcache : loads env st.fs cacheFile with
    | true =>
      rw [LoadDefaultFont_of_cache env st hsys hcache]
      simp
    | false =>
      rw [LoadDefaultFont_of_fail env st hsys hcache]
      have hfs : (logEvent (.httpGet defaultFontURL) (afterInitialLoads env st)).fs = st.fs :=
        (afterInitialLoads_spec env st hsys).1
      rcases hget : env.httpGet defaultFontURL with ⟨resp, err⟩
      cases err with
      | some e => simp [hno]
      | none =>
        simp only [hno, false_or, Bool.false_eq_true]
        cases hcreate : env.create st.fs cacheFile with
        | error e =>
          cases resp with
          | none =>
            have h := download_create_error_nil env _ e (hfs ▸ hcreate)
            simp [h.1]
          | some body =>
            have h := download_create_error env _ e body (hfs ▸ hcreate)
            rw [h.1, hfs, hcache]
            simp
        | ok fs1 =>
          cases resp with
          | none =>
            have h := download_create_ok_nil env _ fs1 (hfs ▸ hcreate)
            simp [h.1]
          | some body =>
            by_cases hcopy : (env.copy fs1 cacheFile body).2.1 = 0 ∨
                (env.copy fs1 cacheFile body).2.2 ≠ none
            · have h := download_copy_failed env _ fs1 body (hfs ▸ hcreate) hcopy
              rw [h.1]
              simp only [Outcome.returned.injEq, reduceCtorEq, false_iff]
              rintro ⟨b, f, hb, hf, hn, he, _⟩
              simp only [Prod.mk.injEq, Option.some.injEq, and_true] at hb
              simp only [Except.ok.injEq] at hf
              subst hb hf
              rcases hcopy with h0 | h1
              · exact hn h0
              · exact h1 he
            · have h := download_copy_ok env _ fs1 body (hfs ▸ hcreate) hcopy
              rw [h.1]
              push_neg at hcopy
              constructor
              · intro hres
                refine ⟨body, fs1, rfl, rfl, hcopy.1, hcopy.2, ?_⟩
                by_contra hl
                simp [hl] at hres
              · rintro ⟨b, f, hb, hf, _, _, hl⟩
                simp only [Prod.mk.injEq, Option.some.injEq, and_true] at hb
                simp only [Except.ok.injEq] at hf
                subst hb hf
                simp [hl]

/-- C7: the events `LoadDefaultFont` appends end in one last event; the attempts
among them (calls of `LoadFont` and the GET) are an initial segment of
`priorityOrder`; no event before the last is a successful load, and the call
returns `nil` exactly when the last event is one.  When no system path loads and
the cache file does, the call returns `nil` with `FontName = "OpenSans"`, the file
system untouched, and no GET, write to standard error, file creation or copy
among the events. -/
theorem LoadDefaultFont_attempts {FS Font : Type} (env : Env FS Font) (st : State FS Font) :
    ∃ pre last, (LoadDefaultFont env st).2.trace = st.trace ++ (pre ++ [last]) ∧
      (pre ++ [last]).filterMap Event.attempt <+: priorityOrder ∧
      (∀ ev ∈ pre, ev.isSuccess = false) ∧
      ((LoadDefaultFont env st).1 = .returned none ↔ last.isSuccess = true) ∧
      ((∀ path ∈ commonPaths, loads env st.fs path = false) →
        loads env st.fs cacheFile = true →
        (LoadDefaultFont env st).1 = .returned none ∧
        (LoadDefaultFont env st).2.FontName = "OpenSans" ∧
        (LoadDefaultFont env st).2.fs = st.fs ∧
        last = .load "OpenSans" cacheFile true ∧
        ∀ ev ∈ pre ++ [last], (∀ url, ev ≠ .httpGet url) ∧ (∀ text, ev ≠ .stderr text) ∧
          (∀ path, ev ≠ .create path) ∧ (∀ path, ev ≠ .copy path)) := by
  cases hsys : commonPaths.any (loads env st.fs) with
  | true =>
    obtain ⟨pre, path, rest, h1, h2, h3⟩ := commonTrace_success env st.fs commonPaths hsys
    refine ⟨pre, .load "Arial" path true, ?_, ?_, fun ev hev => (h2 ev hev).1, ?_, ?_⟩
    · rw [LoadDefaultFont_of_common env st hsys, ← h1]
      exact (loadCommonPaths_spec env commonPaths st).2.2.1
    · exact ⟨rest ++ [Attempt.load "OpenSans" cacheFile, Attempt.get defaultFontURL,
        Attempt.load "OpenSans" cacheFile], by rw [← List.append_assoc, h3]; rfl⟩
    · rw [LoadDefaultFont_of_common env st hsys]
      simp [Event.isSuccess]
    · intro hall
      have : commonPaths.any (loads env st.fs) = false := by
        rw [List.any_eq_false]
        intro path hp
        simp [hall path hp]
      rw [hsys] at this
      exact absurd this (by simp)
  | false =>
    obtain ⟨hfs, htr, hname⟩ := afterInitialLoads_spec env st hsys
    obtain ⟨hcq, hca⟩ := commonTrace_fail env st.fs commonPaths hsys
    cases hcache : loads env st.fs cacheFile with
    | true =>
      rw [hcache] at hname
      refine ⟨commonTrace env st.fs commonPaths ++ readTrace env st.fs cacheFile,
        .load "OpenSans" cacheFile true, ?_, ?_, ?_, ?_, ?_⟩
      · rw [LoadDefaultFont_of_cache env st hsys hcache, htr]
        simp [loadTrace, hcache]
      · refine ⟨[Attempt.get defaultFontURL, Attempt.load "OpenSans" cacheFile], ?_⟩
        rw [List.filterMap_append, List.filterMap_append, hca, readTrace_attempts]
        rfl
      · intro ev hev
        rcases List.mem_append.mp hev with h | h
        · exact (hcq ev h).1
        · exact (readTrace_quiet env st.fs cacheFile ev h).1
      · rw [LoadDefaultFont_of_cache env st hsys hcache]
        simp [Event.isSuccess]
      · intro _ _
        rw [LoadDefaultFont_of_cache env st hsys hcache]
        refine ⟨rfl, by simpa using hname, hfs, rfl, ?_⟩
        intro ev hev
        apply Event.ne_of_isFetch_false
        rcases List.mem_append.mp hev with h | h
        · rcases List.mem_append.mp h with h | h
          · exact (hcq ev h).2
          · exact (readTrace_quiet env st.fs cacheFile ev h).2.1
        · rw [List.mem_singleton] at h
          subst h
          rfl
    | false =>
      obtain ⟨hfq, hfa⟩ := failTrace_spec env st.fs hsys hcache
      rw [LoadDefaultFont_of_fail env st hsys hcache]
      rcases hget : env.httpGet defaultFontURL with ⟨resp, err⟩
      cases err with
      | some e =>
        refine ⟨commonTrace env st.fs commonPaths ++ loadTrace env st.fs "OpenSans" cacheFile,
          .httpGet defaultFontURL, ?_, ?_, fun ev hev => (hfq ev hev).1, ?_, ?_⟩
        · simp [logEvent, htr]
        · refine ⟨[Attempt.load "OpenSans" cacheFile], ?_⟩
          rw [List.filterMap_append, hfa]
          rfl
        · simp [Event.isSuccess]
        · intro _ h
          simp at h
      | none =>
        obtain ⟨tpre, tlast, t1, t2, t3, t4⟩ :=
          download_shape env resp (logEvent (.httpGet defaultFontURL) (afterInitialLoads env st))
        refine ⟨commonTrace env st.fs commonPaths ++ loadTrace env st.fs "OpenSans" cacheFile ++
            [.httpGet defaultFontURL] ++ tpre, tlast, ?_, ?_, ?_, t3, ?_⟩
        · simp only
          rw [t1]
          simp [logEvent, htr]
        · have hsplit : (commonTrace env st.fs commonPaths ++
                loadTrace env st.fs "OpenSans" cacheFile ++ [Event.httpGet defaultFontURL] ++ tpre ++
                [tlast]).filterMap Event.attempt =
              commonPaths.map (Attempt.load "Arial") ++ [Attempt.load "OpenSans" cacheFile] ++
                [Attempt.get defaultFontURL] ++ (tpre ++ [tlast]).filterMap Event.attempt := by
            rw [List.append_assoc _ tpre, List.filterMap_append, List.filterMap_append, hfa]
            rfl
          rw [hsplit]
          rcases t4 with h | h
          · rw [h]
            exact ⟨[Attempt.load "OpenSans" cacheFile], by simp [priorityOrder]⟩
          · rw [h]
            exact ⟨[], by simp [priorityOrder]⟩
        · intro ev hev
          rcases List.mem_append.mp hev with h | h
          · rcases List.mem_append.mp h with h | h
            · exact (hfq ev h).1
            · rw [List.mem_singleton] at h
              subst h
              rfl
          · exact t2 ev h
        · intro _ h
          simp at h

theorem LoadDefaultFont_attempts_witness :
    (LoadDefaultFont offlineEnv (initState cachedFS)).1 = .returned none ∧
    (LoadDefaultFont offlineEnv (initState cachedFS)).2.FontName = "OpenSans" ∧
    (LoadDefaultFont offlineEnv (initState cachedFS)).2.trace.filterMap Event.attempt =
      commonPaths.map (Attempt.load "Arial") ++ [Attempt.load "OpenSans" cacheFile] := by
  obtain ⟨pre, last, _, _, _, _, h⟩ := LoadDefaultFont_attempts offlineEnv (initState cachedFS)
  obtain ⟨h1, h2, _, _, _⟩ := h (by decide) (by decide)
  exact ⟨h1, h2, by decide⟩

/-- C8: when the four system loads and the cache load fail and `http.Get`
reports an error, `LoadDefaultFont` returns the error "unable to find Arial.ttf"
(it does not fault, whatever the response pointer is), leaves the file system
as it was, and the GET is its last event: before it come only the five failed
loads, with no write to standard error, no file creation and no copy, and the
attempts are exactly the five loads followed by the GET. -/
theorem LoadDefaultFont_network_error {FS Font : Type} (env : Env FS Font)
    (st : State FS Font) (resp : Option Bytes) (e : GoError)
    (hsys : ∀ path ∈ commonPaths, loads env st.fs path = false)
    (hcache : loads env st.fs cacheFile = false)
    (hget : env.httpGet defaultFontURL = (resp, some e)) :
    (LoadDefaultFont env st).1 = .returned (some (Errorf "unable to find Arial.ttf")) ∧
    (LoadDefaultFont env st).2.fs = st.fs ∧
    (LoadDefaultFont env st).2.FontName = st.FontName ∧
    ∃ pre, (LoadDefaultFont env st).2.trace = st.trace ++ (pre ++ [.httpGet defaultFontURL]) ∧
      (∀ ev ∈ pre, (∀ url, ev ≠ .httpGet url) ∧ (∀ text, ev ≠ .stderr text) ∧
        (∀ path, ev ≠ .create path) ∧ (∀ path, ev ≠ .copy path)) ∧
      (pre ++ [.httpGet defaultFontURL]).filterMap Event.attempt =
        commonPaths.map (Attempt.load "Arial") ++
          [Attempt.load "OpenSans" cacheFile, Attempt.get defaultFontURL] := by
  have hany : commonPaths.any (loads env st.fs) = false := by
    rw [List.any_eq_false]
    intro path hp
    simp [hsys path hp]
  obtain ⟨hfs, htr, hname⟩ := afterInitialLoads_spec env st hany
  obtain ⟨hfq, hfa⟩ := failTrace_spec env st.fs hany hcache
  rw [LoadDefaultFont_of_fail env st hany hcache, hget]
  refine ⟨rfl, hfs, by simpa [logEvent, hcache] using hname,
    commonTrace env st.fs commonPaths ++ loadTrace env st.fs "OpenSans" cacheFile, ?_, ?_, ?_⟩
  · simp [logEvent, htr]
  · intro ev hev
    exact Event.ne_of_isFetch_false ev (hfq ev hev).2
  · rw [List.filterMap_append, hfa]
    simp [Event.attempt]

theorem LoadDefaultFont_network_error_witness :
    (LoadDefaultFont offlineEnv (initState junkFS)).1 =
      .returned (some (Errorf "unable to find Arial.ttf")) ∧
    (LoadDefaultFont offlineEnv (initState junkFS)).2.FontName = "" :=
  have h := LoadDefaultFont_network_error offlineEnv (initState junkFS) none
    ⟨"dial tcp: no route to host"⟩ (by decide) (by decide) rfl
  ⟨h.1, h.2.2.1⟩

/-- C9 (refuted as stated): when all five loads fail, the GET answers and the copy
writes zero bytes, `LoadDefaultFont` fails with the message "failed to download a
font to use", which is not "unable to find Arial.ttf". -/
theorem LoadDefaultFont_other_message :
    (LoadDefaultFont emptyBodyEnv (initState emptyFS)).1 =
      .returned (some ⟨"failed to download a font to use"⟩) ∧
    (⟨"failed to download a font to use"⟩ : GoError).msg ≠ "unable to find Arial.ttf" := by
  decide

/-- C9 (amended): a failing `LoadDefaultFont` carries one of two fixed messages:
"failed to download a font to use" exactly when the five loads failed, the GET
answered, the cache file was created and the copy wrote zero bytes or reported
an error; "unable to find Arial.ttf" in every other failure. -/
theorem LoadDefaultFont_error_message {FS Font : Type} (env : Env FS Font)
    (st : State FS Font) (e : GoError)
    (herr : (LoadDefaultFont env st).1 = .returned (some e)) :
    (e.msg = "unable to find Arial.ttf" ∨ e.msg = "failed to download a font to use") ∧
    (e.msg = "failed to download a font to use" ↔
      (∀ path ∈ commonPaths, loads env st.fs path = false) ∧
      loads env st.fs cacheFile = false ∧
      ∃ body fs1, env.httpGet defaultFontURL = (some body, none) ∧
        env.create st.fs cacheFile = .ok fs1 ∧
        ((env.copy fs1 cacheFile body).2.1 = 0 ∨ (env.copy fs1 cacheFile body).2.2 ≠ none)) := by
  have hdiff : ¬ ("unable to find Arial.ttf" = "failed to download a font to use") := by decide
  cases hsys : commonPaths.any (loads env st.fs) with
  | true =>
    rw [LoadDefaultFont_of_common env st hsys] at herr
    simp at herr
  | false =>
    have hall : ∀ path ∈ commonPaths, loads env st.fs path = false := by
      intro path hp
      have := (List.any_eq_false.mp hsys) path hp
      simpa using this
    cases hcache : loads env st.fs cacheFile with
    | true =>
      rw [LoadDefaultFont_of_cache env st hsys hcache] at herr
      simp at herr
    | false =>
      rw [LoadDefaultFont_of_fail env st hsys hcache] at herr
      have hfs : (logEvent (.httpGet defaultFontURL) (afterInitialLoads env st)).fs = st.fs :=
        (afterInitialLoads_spec env st hsys).1
      rcases hget : env.httpGet defaultFontURL with ⟨resp, err⟩
      rw [hget] at herr
      cases err with
      | some e2 =>
        simp only [Outcome.returned.injEq, Option.some.injEq] at herr
        subst herr
        simp [Errorf, hdiff]
      | none =>
        simp only at herr
        cases hcreate : env.create st.fs cacheFile with
        | error e2 =>
          cases resp with
          | none =>
            rw [(download_create_error_nil env _ e2 (hfs ▸ hcreate)).1] at herr
            simp at herr
          | some body =>
            rw [(download_create_error env _ e2 body (hfs ▸ hcreate)).1, hfs, hcache] at herr
            simp only [Bool.false_eq_true, if_false, Outcome.returned.injEq,
              Option.some.injEq] at herr
            subst herr
            simp [Errorf, hdiff]
        | ok fs1 =>
          cases resp with
          | none =>
            rw [(download_create_ok_nil env _ fs1 (hfs ▸ hcreate)).1] at herr
            simp at herr
          | some body =>
            by_cases hcopy : (env.copy fs1 cacheFile body).2.1 = 0 ∨
                (env.copy fs1 cacheFile body).2.2 ≠ none
            · rw [(download_copy_failed env _ fs1 body (hfs ▸ hcreate) hcopy).1] at herr
              simp only [Outcome.returned.injEq, Option.some.injEq] at herr
              subst herr
              refine ⟨Or.inr rfl, fun _ => ⟨hall, rfl, body, fs1, rfl, rfl, hcopy⟩, fun _ => rfl⟩
            · rw [(download_copy_ok env _ fs1 body (hfs ▸ hcreate) hcopy).1] at herr
              have he : e = Errorf "unable to find Arial.ttf" := by
                cases hl : loads env (env.copy fs1 cacheFile body).1 cacheFile with
                | true => simp [hl] at herr
                | false =>
                  simp only [hl, Bool.false_eq_true, if_false, Outcome.returned.injEq,
                    Option.some.injEq] at herr
                  exact herr.symm
              subst he
              refine ⟨Or.inl rfl, fun h => absurd h hdiff, ?_⟩
              rintro ⟨_, _, b, f, hb, hf, hc⟩
              simp only [Prod.mk.injEq, Option.some.injEq, and_true] at hb
              simp only [Except.ok.injEq] at hf
              subst hb hf
              exact absurd hc hcopy

theorem LoadDefaultFont_error_message_witness :
    (LoadDefaultFont offlineEnv (initState emptyFS)).1 =
      .returned (some ⟨"unable to find Arial.ttf"⟩) ∧
    ¬ ((∀ path ∈ commonPaths, loads offlineEnv emptyFS path = false) ∧
      loads offlineEnv emptyFS cacheFile = false ∧
      ∃ body fs1, offlineEnv.httpGet defaultFontURL = (some body, none) ∧
        offlineEnv.create emptyFS cacheFile = .ok fs1 ∧
        ((offlineEnv.copy fs1 cacheFile body).2.1 = 0 ∨
          (offlineEnv.copy fs1 cacheFile body).2.2 ≠ none)) :=
  ⟨by decide,
   fun h => absurd ((LoadDefaultFont_error_message offlineEnv (initState emptyFS)
     ⟨"unable to find Arial.ttf"⟩ (by decide)).2.mpr h) (by decide)⟩

/-- C10 (refuted by the code): when the five loads fail, the GET answers and
`os.Create` fails, so that no byte is written, `LoadDefaultFont` does not stop:
it closes the nil file and the body and calls `LoadFont` on the cache file a
second time, before returning "unable to find Arial.ttf". -/
theorem LoadDefaultFont_reloads_after_create_error :
    (∀ path ∈ commonPaths, loads readOnlyEnv junkFS path = false) ∧
    loads readOnlyEnv junkFS cacheFile = false ∧
    readOnlyEnv.httpGet defaultFontURL = (some validFont, none) ∧
    (readOnlyEnv.create junkFS cacheFile).toBool = false ∧
    (LoadDefaultFont readOnlyEnv (initState junkFS)).1 =
      .returned (some (Errorf "unable to find Arial.ttf")) ∧
    (LoadDefaultFont readOnlyEnv (initState junkFS)).2.trace.drop 15 =
      [ .create cacheFile, .closeFile, .closeBody, .readFile cacheFile, .parse [7],
        .load "OpenSans" cacheFile false ] ∧
    (LoadDefaultFont readOnlyEnv (initState junkFS)).2.trace.filterMap Event.attempt =
      priorityOrder := by
  decide

/-! ### `MeasureFont` -/

theorem wrapInt64_of_range (v : Int) (hlo : -2 ^ 63 ≤ v) (hhi : v < 2 ^ 63) :
    wrapInt64 v = v := by
  unfold wrapInt64
  omega

/-- C4 (refuted as stated): with no active font, the one-byte string and
`sz = -2^63` give `2^63 - 2`: the subtraction `sz - 2` wraps around, so the
result is neither the integer `len(s) * (sz - 2)` nor negative. -/
theorem MeasureFont_estimate_wraps :
    (initState emptyFS).theFont = none ∧
    MeasureFont demoMeasure (initState emptyFS) ⟨72⟩ [97] (-2 ^ 63) = 2 ^ 63 - 2 ∧
    MeasureFont demoMeasure (initState emptyFS) ⟨72⟩ [97] (-2 ^ 63) ≠
      (([97] : Bytes).length : Int) * (-2 ^ 63 - 2) ∧
    ¬ MeasureFont demoMeasure (initState emptyFS) ⟨72⟩ [97] (-2 ^ 63) < 0 := by
  decide

/-- C4 (amended): with no active font, `MeasureFont(s, sz)` is `len(s) * (sz - 2)`
in wrapping 64-bit arithmetic; it is the exact integer product whenever `sz - 2`
and the product are representable; it is `0` for the empty string, `0` at
`sz = 2`, negative for a non-empty string with `sz < 2` whose exact product is at
least `-2^63`; and it does not depend on the settings. -/
theorem MeasureFont_estimate {FS Font Dpi : Type}
    (measureString : Font → Int → Dpi → Bytes → Int26_6) (st : State FS Font)
    (x : Settings Dpi) (s : Bytes) (sz : Int)
    (hfont : st.theFont = none) (hlo : -2 ^ 63 ≤ sz) (hhi : sz < 2 ^ 63) :
    MeasureFont measureString st x s sz = wrapInt64 ((s.length : Int) * wrapInt64 (sz - 2)) ∧
    (-2 ^ 63 ≤ sz - 2 → -2 ^ 63 ≤ (s.length : Int) * (sz - 2) →
      (s.length : Int) * (sz - 2) < 2 ^ 63 →
      MeasureFont measureString st x s sz = (s.length : Int) * (sz - 2)) ∧
    (s = [] → MeasureFont measureString st x s sz = 0) ∧
    (sz = 2 → MeasureFont measureString st x s sz = 0) ∧
    (s ≠ [] → sz < 2 → -2 ^ 63 ≤ (s.length : Int) * (sz - 2) →
      MeasureFont measureString st x s sz < 0) ∧
    ∀ y : Settings Dpi,
      MeasureFont measureString st y s sz = MeasureFont measureString st x s sz := by
  have hdef : ∀ y : Settings Dpi, MeasureFont measureString st y s sz =
      wrapInt64 ((s.length : Int) * wrapInt64 (sz - 2)) := by
    intro y
    simp [MeasureFont, hfont]
  have hexact : -2 ^ 63 ≤ sz - 2 → -2 ^ 63 ≤ (s.length : Int) * (sz - 2) →
      (s.length : Int) * (sz - 2) < 2 ^ 63 →
      wrapInt64 ((s.length : Int) * wrapInt64 (sz - 2)) = (s.length : Int) * (sz - 2) := by
    intro h1 h2 h3
    rw [wrapInt64_of_range (sz - 2) h1 (by omega)]
    exact wrapInt64_of_range _ h2 h3
  refine ⟨hdef x, ?_, ?_, ?_, ?_, ?_⟩
  · intro h1 h2 h3
    rw [hdef x]
    exact hexact h1 h2 h3
  · intro hs
    rw [hdef x, hs]
    simp [wrapInt64]
  · intro h2
    rw [hdef x, h2]
    simp [wrapInt64]
  · intro hs hsz hprod
    have hlen : 1 ≤ (s.length : Int) := by
      have : 0 < s.length := List.length_pos.mpr hs
      omega
    have hneg : (s.length : Int) * (sz - 2) ≤ 1 * (sz - 2) :=
      Int.mul_le_mul_of_nonpos_right hlen (by omega)
    have hneg2 : (s.length : Int) * (sz - 2) < 0 := by omega
    rw [hdef x, hexact (by omega) hprod (by omega)]
    exact hneg2
  · intro y
    rw [hdef y, hdef x]

theorem MeasureFont_estimate_witness :
    MeasureFont demoMeasure (initState emptyFS) ⟨72⟩ [76, 111] 12 = 20 ∧
    MeasureFont demoMeasure (initState emptyFS) ⟨72⟩ [76, 111] 1 < 0 :=
  have h := MeasureFont_estimate demoMeasure (initState emptyFS) ⟨72⟩ [76, 111] 12
    rfl (by decide) (by decide)
  have h1 := MeasureFont_estimate demoMeasure (initState emptyFS) ⟨72⟩ [76, 111] 1
    rfl (by decide) (by decide)
  ⟨(h.2.1 (by decide) (by decide) (by decide)).trans (by decide),
   h1.2.2.2.2.1 (by decide) (by decide) (by decide)⟩

/-- C5 (refuted as stated): with an active font and a measured advance of `-1`,
`MeasureFont` returns `-1`, while `-1` divided by `64` rounded toward zero is `0`. -/
theorem MeasureFont_shift_not_truncation :
    (arialState emptyFS).theFont = some validFont ∧
    (backwardMeasure validFont 12 72 [97]).val = -1 ∧
    MeasureFont backwardMeasure (arialState emptyFS) ⟨72⟩ [97] 12 = -1 ∧
    Int.tdiv (backwardMeasure validFont 12 72 [97]).val 64 = 0 ∧
    MeasureFont backwardMeasure (arialState emptyFS) ⟨72⟩ [97] 12 ≠
      Int.tdiv (backwardMeasure validFont 12 72 [97]).val 64 := by
  decide

/-- C5 (amended): with an active font, `MeasureFont(s, sz)` is the measured 26.6
advance `w` shifted right arithmetically by six bits, that is `w / 64` rounded
toward minus infinity; it is the quotient rounded toward zero exactly when
`w ≥ 0` or `w` is a multiple of `64`. -/
theorem MeasureFont_floor {FS Font Dpi : Type}
    (measureString : Font → Int → Dpi → Bytes → Int26_6) (st : State FS Font)
    (x : Settings Dpi) (s : Bytes) (sz : Int) (font : Font)
    (hfont : st.theFont = some font) :
    MeasureFont measureString st x s sz = (measureString font sz x.dpi s).val / 64 ∧
    64 * MeasureFont measureString st x s sz ≤ (measureString font sz x.dpi s).val ∧
    (measureString font sz x.dpi s).val < 64 * MeasureFont measureString st x s sz + 64 ∧
    (MeasureFont measureString st x s sz = Int.tdiv (measureString font sz x.dpi s).val 64 ↔
      0 ≤ (measureString font sz x.dpi s).val ∨ 64 ∣ (measureString font sz x.dpi s).val) := by
  have hdef : MeasureFont measureString st x s sz = (measureString font sz x.dpi s).val / 64 := by
    simp only [MeasureFont, hfont]
    rw [Int.shiftRight_eq_div_pow]
    norm_num
  generalize (measureString font sz x.dpi s).val = w at hdef
  rw [hdef]
  refine ⟨rfl, by omega, by omega, ?_⟩
  rcases Int.lt_or_le w 0 with hneg | hpos
  · have ht : Int.tdiv w 64 = -((-w) / 64) := by
      have h1 : Int.tdiv (-w) 64 = (-w) / 64 := Int.tdiv_eq_ediv (by omega) (by decide)
      rw [← h1, Int.neg_tdiv, Int.neg_neg]
    rw [ht]
    constructor
    · intro h
      right
      omega
    · intro h
      rcases h with h | h
      · omega
      · omega
  · constructor
    · intro _
      exact Or.inl hpos
    · intro _
      exact (Int.tdiv_eq_ediv hpos (by decide)).symm

theorem MeasureFont_floor_witness :
    MeasureFont demoMeasure (arialState emptyFS) ⟨72⟩ [76, 111] 12 = 15 :=
  ((MeasureFont_floor demoMeasure (arialState emptyFS) ⟨72⟩ [76, 111] 12 validFont rfl).1).trans
    (by decide)

end Drawing
